import Mathlib

/-!
Verification development for the two enrichment engines of the repository:
the pattern-resolution engine (`logprep/processor/generic_resolver/processor.py`)
and the template-lookup engine (`logprep/processor/template_replacer/processor.py`).

The Python code mutates JSON-like nested dictionaries in place; we embed the
document model as an inductive `Val` with insertion-ordered association lists
for dictionaries (Python `dict` preserves insertion order, updates an existing
key in place and appends new keys at the end).  Fallible Python operations
(KeyError, TypeError, AttributeError) are embedded as `Option`/`Except`.
-/

namespace Logprep

/-- JSON-like values stored in an event document: strings, integers, booleans,
lists and string-keyed objects (insertion-ordered, as Python dicts). -/
inductive Val where
  | str : String → Val
  | int : Int → Val
  | bool : Bool → Val
  | list : List Val → Val
  | obj : List (String × Val) → Val
deriving Inhabited

mutual

/-- Structural equality on values, modelling Python `==` between document
values (used by `in` on lists in the resolver's append-unique branch). -/
def valBEq : Val → Val → Bool
  | .str a, .str b => a == b
  | .int a, .int b => a == b
  | .bool a, .bool b => a == b
  | .list a, .list b => valListBEq a b
  | .obj a, .obj b => valObjBEq a b
  | _, _ => false

/-- Elementwise equality of value lists. -/
def valListBEq : List Val → List Val → Bool
  | [], [] => true
  | x :: xs, y :: ys => valBEq x y && valListBEq xs ys
  | _, _ => false

/-- Elementwise equality of key/value pair lists. -/
def valObjBEq : List (String × Val) → List (String × Val) → Bool
  | [], [] => true
  | (k, x) :: xs, (l, y) :: ys => k == l && valBEq x y && valObjBEq xs ys
  | _, _ => false

end

instance : BEq Val := ⟨valBEq⟩

mutual

theorem valBEq_refl : ∀ v : Val, valBEq v v = true
  | .str _ => by simp [valBEq]
  | .int _ => by simp [valBEq]
  | .bool _ => by simp [valBEq]
  | .list l => by simp [valBEq, valListBEq_refl l]
  | .obj d => by simp [valBEq, valObjBEq_refl d]

theorem valListBEq_refl : ∀ l : List Val, valListBEq l l = true
  | [] => by simp [valListBEq]
  | x :: xs => by simp [valListBEq, valBEq_refl x, valListBEq_refl xs]

theorem valObjBEq_refl : ∀ d : List (String × Val), valObjBEq d d = true
  | [] => by simp [valObjBEq]
  | (k, x) :: xs => by simp [valObjBEq, valBEq_refl x, valObjBEq_refl xs]

end

/-- Python truthiness of a document value (`if src_val:`): empty strings,
zero, `False`, empty lists and empty dicts are falsy. -/
def valTruthy : Val → Bool
  | .str s => !(s == "")
  | .int n => !(n == 0)
  | .bool b => b
  | .list l => !l.isEmpty
  | .obj d => !d.isEmpty

/-- Lookup in an insertion-ordered association list (Python `d[k]` / `d.get(k)`). -/
def alGet {β : Type} : List (String × β) → String → Option β
  | [], _ => none
  | (k, v) :: rest, key => if k = key then some v else alGet rest key

/-- Update in an insertion-ordered association list (Python `d[k] = v`):
an existing key is updated in place, a new key is appended at the end. -/
def alSet {β : Type} : List (String × β) → String → β → List (String × β)
  | [], key, v => [(key, v)]
  | (k, w) :: rest, key, v =>
      if k = key then (k, v) :: rest else (k, w) :: alSet rest key v

theorem alGet_alSet_self {β : Type} (d : List (String × β)) (k : String) (v : β) :
    alGet (alSet d k v) k = some v := by
  induction d with
  | nil => simp [alSet, alGet]
  | cons hd tl ih =>
      obtain ⟨k', w⟩ := hd
      by_cases h : k' = k
      · simp [alSet, alGet, h]
      · simp [alSet, alGet, h, ih]

theorem alGet_alSet_ne {β : Type} (d : List (String × β)) (k k' : String) (v : β)
    (h : k ≠ k') : alGet (alSet d k v) k' = alGet d k' := by
  induction d with
  | nil => simp [alSet, alGet, h]
  | cons hd tl ih =>
      obtain ⟨k₀, w⟩ := hd
      by_cases h0 : k₀ = k
      · subst h0
        simp [alSet, alGet, h]
      · simp [alSet, alGet, h0, ih]

theorem alSet_of_alGet_eq {β : Type} (d : List (String × β)) (k : String) (v : β)
    (h : alGet d k = some v) : alSet d k v = d := by
  induction d with
  | nil => simp [alGet] at h
  | cons hd tl ih =>
      obtain ⟨k₀, w⟩ := hd
      by_cases h0 : k₀ = k
      · subst h0
        simp [alGet] at h
        simp [alSet, h]
      · simp [alGet, h0] at h
        simp [alSet, h0, ih h]

theorem alSet_ne_nil {β : Type} (d : List (String × β)) (k : String) (v : β) :
    alSet d k v ≠ [] := by
  cases d with
  | nil => simp [alSet]
  | cons hd tl =>
      obtain ⟨k₀, w⟩ := hd
      by_cases h0 : k₀ = k <;> simp [alSet, h0]

/-- Character-level worker for `splitChar`, carrying the reversed current
segment. -/
def splitCharAux (sep : Char) : List Char → List Char → List String
  | [], acc => [String.mk acc.reverse]
  | c :: cs, acc =>
      if c = sep then String.mk acc.reverse :: splitCharAux sep cs []
      else splitCharAux sep cs (c :: acc)

/-- Splitting a string on a one-character separator (Python `s.split(sep)`):
splitting the empty string gives `[""]`, adjacent separators give empty
segments. -/
def splitChar (sep : Char) (s : String) : List String := splitCharAux sep s.toList []

/-- Splitting a dotted path on a period (Python `path.split('.')`). -/
def splitDot (s : String) : List String := splitChar '.' s

/-- Python `min(result)` over a non-empty list of pattern ids
(the default for the impossible empty case is irrelevant: the resolver
only evaluates it under `if result:`). -/
def listMin : List Nat → Nat
  | [] => 0
  | x :: xs => xs.foldl Nat.min x

/-- Python `result.index(x)`: index of the first occurrence. -/
def listIndex (l : List Nat) (x : Nat) : Nat := l.findIdx (fun y => y == x)

/-- The replacement value selected by the resolver from the list of matched
pattern ids: the source expression
`pattern_id_to_dest_val_map[result[result.index(min(result))]]`
(processor.py lines 126, 128 and 135), transcribed literally. -/
def resolvedValue (idMap : Nat → Val) (result : List Nat) : Val :=
  idMap (result.getD (listIndex result (listMin result)) 0)

theorem listMin_cons (x y : Nat) (ys : List Nat) :
    listMin (x :: y :: ys) = listMin (Nat.min x y :: ys) := rfl

theorem listMin_mem : ∀ (x : Nat) (xs : List Nat), listMin (x :: xs) ∈ x :: xs := by
  intro x xs
  induction xs generalizing x with
  | nil => simp [listMin]
  | cons y ys ih =>
      rw [listMin_cons]
      rcases List.mem_cons.1 (ih (Nat.min x y)) with h | h
      · rw [h]
        rcases Nat.le_total x y with hle | hle
        · simp [Nat.min_eq_left hle]
        · simp [Nat.min_eq_right hle]
      · simp [h]

theorem listMin_le (x : Nat) (xs : List Nat) : ∀ y ∈ x :: xs, listMin (x :: xs) ≤ y := by
  induction xs generalizing x with
  | nil =>
      intro y hy
      rw [List.mem_singleton] at hy
      subst hy
      simp [listMin]
  | cons z zs ih =>
      intro y hy
      rw [listMin_cons]
      have hmin : listMin (Nat.min x z :: zs) ≤ Nat.min x z :=
        ih (Nat.min x z) (Nat.min x z) (List.mem_cons_self _ _)
      rcases List.mem_cons.1 hy with hy | hy
      · subst hy
        exact le_trans hmin (Nat.min_le_left _ _)
      rcases List.mem_cons.1 hy with hy | hy
      · subst hy
        exact le_trans hmin (Nat.min_le_right _ _)
      · exact ih (Nat.min x z) y (List.mem_cons_of_mem _ hy)

theorem getD_listIndex_of_mem (l : List Nat) (m : Nat) (hm : m ∈ l) :
    l.getD (listIndex l m) 0 = m := by
  induction l with
  | nil => simp at hm
  | cons x xs ih =>
      by_cases hx : x = m
      · subst hx
        simp [listIndex, List.findIdx_cons]
      · have hm' : m ∈ xs := by
          rcases List.mem_cons.1 hm with h | h
          · exact absurd h.symm hx
          · exact h
        have hbeq : (x == m) = false := by simp [hx]
        have hidx : listIndex (x :: xs) m = listIndex xs m + 1 := by
          simp [listIndex, List.findIdx_cons, hbeq]
        rw [hidx, List.getD_cons_succ]
        exact ih hm'

theorem resolvedValue_eq_min (idMap : Nat → Val) (r : List Nat) (hr : r ≠ []) :
    resolvedValue idMap r = idMap (listMin r) := by
  obtain ⟨x, xs, rfl⟩ := List.exists_cons_of_ne_nil hr
  unfold resolvedValue
  rw [getD_listIndex_of_mem _ _ (listMin_mem x xs)]

theorem listMin_perm (r r' : List Nat) (hr : r ≠ []) (hp : r'.Perm r) :
    listMin r' = listMin r := by
  obtain ⟨x, xs, rfl⟩ := List.exists_cons_of_ne_nil hr
  have hr' : r' ≠ [] := by
    intro h
    subst h
    exact (List.not_mem_nil x) (hp.mem_iff.2 (by simp))
  obtain ⟨y, ys, rfl⟩ := List.exists_cons_of_ne_nil hr'
  have h1 : listMin (y :: ys) ∈ x :: xs := hp.mem_iff.1 (listMin_mem y ys)
  have h2 : listMin (x :: xs) ∈ y :: ys := hp.mem_iff.2 (listMin_mem x xs)
  exact Nat.le_antisymm (listMin_le y ys _ h2) (listMin_le x xs _ h1)

/-- C1: for every resolver rule application where the source value matches more
than one pattern, the value selected for writing (the literal transcription of
the source expression, `resolvedValue`) is the replacement mapped to the
smallest matched pattern id, independently of the order in which the automaton
reports the matches: any permutation of the reported id list selects the same
replacement, namely the one of the minimal id. -/
theorem generic_resolver_tie_break (idMap : Nat → Val) (r r' : List Nat)
    (hr : r ≠ []) (hp : r'.Perm r) :
    resolvedValue idMap r' = idMap (listMin r) ∧
    listMin r ∈ r ∧ (∀ x ∈ r, listMin r ≤ x) := by
  have hr' : r' ≠ [] := by
    intro h
    subst h
    obtain ⟨x, xs, rfl⟩ := List.exists_cons_of_ne_nil hr
    exact (List.not_mem_nil x) (hp.mem_iff.2 (by simp))
  refine ⟨?_, ?_, ?_⟩
  · rw [resolvedValue_eq_min idMap r' hr', listMin_perm r r' hr hp]
  · obtain ⟨x, xs, rfl⟩ := List.exists_cons_of_ne_nil hr
    exact listMin_mem x xs
  · obtain ⟨x, xs, rfl⟩ := List.exists_cons_of_ne_nil hr
    exact fun y hy => listMin_le x xs y hy

/-- Witness for C1 at a concrete input: the automaton reporting ids in the
order [2, 0, 1] or [0, 1, 2] selects the replacement of id 0 either way. -/
theorem generic_resolver_tie_break_witness :
    ([2, 0, 1] : List Nat) ≠ [] ∧
    resolvedValue (fun i => .str (toString i)) [0, 1, 2] = .str "0" := by
  constructor
  · decide
  · have h := generic_resolver_tie_break (fun i => .str (toString i))
      [2, 0, 1] [0, 1, 2] (by decide) (by decide)
    rw [h.1]
    rfl

/-- The resolver's nested write of the resolved value to the target path
(`GenericResolver._apply_rules`, processor.py lines 119-138), transcribed
literally as structural recursion over the remaining path components.

The Python loop keeps a reference `dict_` to the current nested dict:
- a missing final key is written (in `append_to_list` mode the source line is
  `dict_[key] = dict_.get('key', [])`, a literal string `'key'`, so an
  existing entry under the name "key" is aliased: the subsequent in-place
  `.append` is then visible under both keys, and a non-list under "key"
  raises an AttributeError, modelled as `none`);
- a missing intermediate key is created as an empty dict and descended into;
- a present dict is descended into;
- a present list in append mode gets the value appended unless already
  a member;
- anything else records `keys[idx]` as a conflict, and the loop continues
  with the next component against the same dict (there is no break).

The result is the updated dict together with the conflict components
recorded for this mapping, or `none` where Python would raise a TypeError
or AttributeError. -/
def writeKeys (append : Bool) (value : Val) :
    List String → List (String × Val) → Option (List (String × Val) × List String)
  | [], obj => some (obj, [])
  | k :: rest, obj =>
    match alGet obj k with
    | none =>
        if rest.isEmpty then
          (if append then
            (match alGet obj "key" with
             | none => some (alSet obj k (.list [value]), [])
             | some (.list l) =>
                 some (alSet (alSet obj "key" (.list (l ++ [value]))) k
                   (.list (l ++ [value])), [])
             | some _ => none)
           else some (alSet obj k value, []))
        else
          (match writeKeys append value rest [] with
           | some (inner, confl) => some (alSet obj k (.obj inner), confl)
           | none => none)
    | some (.obj inner) =>
        match writeKeys append value rest inner with
        | some (inner', confl) => some (alSet obj k (.obj inner'), confl)
        | none => none
    | some other =>
        let step : List (String × Val) × List String :=
          if append then
            match other with
            | .list l =>
                (if l.contains value then obj else alSet obj k (.list (l ++ [value])), [])
            | _ => (obj, [k])
          else (obj, [k])
        match writeKeys append value rest step.1 with
        | some (obj2, c2) => some (obj2, step.2 ++ c2)
        | none => none

mutual

theorem eq_of_valBEq : ∀ (a b : Val), valBEq a b = true → a = b
  | .str x, .str y, h => by
      simp only [valBEq, beq_iff_eq] at h
      rw [h]
  | .int x, .int y, h => by
      simp only [valBEq, beq_iff_eq] at h
      rw [h]
  | .bool x, .bool y, h => by
      simp only [valBEq, beq_iff_eq] at h
      rw [h]
  | .list x, .list y, h => by
      rw [eq_of_valListBEq x y (by simpa [valBEq] using h)]
  | .obj x, .obj y, h => by
      rw [eq_of_valObjBEq x y (by simpa [valBEq] using h)]
  | .str _, .int _, h => nomatch h
  | .str _, .bool _, h => nomatch h
  | .str _, .list _, h => nomatch h
  | .str _, .obj _, h => nomatch h
  | .int _, .str _, h => nomatch h
  | .int _, .bool _, h => nomatch h
  | .int _, .list _, h => nomatch h
  | .int _, .obj _, h => nomatch h
  | .bool _, .str _, h => nomatch h
  | .bool _, .int _, h => nomatch h
  | .bool _, .list _, h => nomatch h
  | .bool _, .obj _, h => nomatch h
  | .list _, .str _, h => nomatch h
  | .list _, .int _, h => nomatch h
  | .list _, .bool _, h => nomatch h
  | .list _, .obj _, h => nomatch h
  | .obj _, .str _, h => nomatch h
  | .obj _, .int _, h => nomatch h
  | .obj _, .bool _, h => nomatch h
  | .obj _, .list _, h => nomatch h

theorem eq_of_valListBEq : ∀ (a b : List Val), valListBEq a b = true → a = b
  | [], [], _ => rfl
  | x :: xs, y :: ys, h => by
      simp only [valListBEq, Bool.and_eq_true] at h
      rw [eq_of_valBEq x y h.1, eq_of_valListBEq xs ys h.2]
  | [], _ :: _, h => nomatch h
  | _ :: _, [], h => nomatch h

theorem eq_of_valObjBEq : ∀ (a b : List (String × Val)), valObjBEq a b = true → a = b
  | [], [], _ => rfl
  | (k, x) :: xs, (l, y) :: ys, h => by
      simp only [valObjBEq, Bool.and_eq_true, beq_iff_eq] at h
      rw [h.1.1, eq_of_valBEq x y h.1.2, eq_of_valObjBEq xs ys h.2]
  | [], _ :: _, h => nomatch h
  | _ :: _, [], h => nomatch h

end

instance : LawfulBEq Val where
  eq_of_beq h := eq_of_valBEq _ _ h
  rfl := valBEq_refl _

/-- Reading the value at a non-empty key path of a nested document,
descending only through objects. -/
def getPath : List (String × Val) → List String → Option Val
  | _, [] => none
  | d, [k] => alGet d k
  | d, k :: k2 :: rest =>
      match alGet d k with
      | some (.obj inner) => getPath inner (k2 :: rest)
      | _ => none

/-- Functionally updating the value at a non-empty key path of a nested
document whose intermediate locations are existing objects. -/
def setPath : List (String × Val) → List String → Val → List (String × Val)
  | d, [], _ => d
  | d, [k], v => alSet d k v
  | d, k :: k2 :: rest, v =>
      match alGet d k with
      | some (.obj inner) => alSet d k (.obj (setPath inner (k2 :: rest) v))
      | _ => d

/-- The key path descends through existing objects and its final key holds
the list `l` (the shape required for the resolver's append-unique branch). -/
def PathToList : List (String × Val) → List String → List Val → Prop
  | d, [k], l => alGet d k = some (.list l)
  | d, k :: k2 :: rest, l =>
      ∃ inner, alGet d k = some (.obj inner) ∧ PathToList inner (k2 :: rest) l
  | _, [], _ => False

theorem writeKeys_nil (append : Bool) (v : Val) (d : List (String × Val)) :
    writeKeys append v [] d = some (d, []) := rfl

theorem writeKeys_cons_obj (append : Bool) (v : Val) (k : String) (rest : List String)
    (d inner : List (String × Val)) (hget : alGet d k = some (.obj inner)) :
    writeKeys append v (k :: rest) d =
      (writeKeys append v rest inner).map (fun p => (alSet d k (.obj p.1), p.2)) := by
  rw [writeKeys.eq_def]
  simp only [hget]
  cases h : writeKeys append v rest inner with
  | none => simp
  | some p =>
      cases p
      simp

theorem writeKeys_cons_list_append (v : Val) (k : String) (rest : List String)
    (d : List (String × Val)) (l : List Val) (hget : alGet d k = some (.list l)) :
    writeKeys true v (k :: rest) d =
      writeKeys true v rest (if l.contains v then d else alSet d k (.list (l ++ [v]))) := by
  rw [writeKeys.eq_def]
  simp only [hget]
  by_cases hc : l.contains v
  · simp only [hc, if_true]
    cases h : writeKeys true v rest d with
    | none => simp [h]
    | some p =>
        cases p
        simp [h]
  · simp only [hc, if_false, Bool.false_eq_true]
    cases h : writeKeys true v rest (alSet d k (.list (l ++ [v]))) with
    | none => simp [h]
    | some p =>
        cases p
        simp [h]

theorem writeKeys_pathToList (v : Val) :
    ∀ (keys : List String) (d : List (String × Val)) (l : List Val),
      PathToList d keys l →
      writeKeys true v keys d =
        some ((if l.contains v then d else setPath d keys (.list (l ++ [v]))), [])
  | [], _, _, h => h.elim
  | [k], d, l, h => by
      simp only [PathToList] at h
      rw [writeKeys_cons_list_append v k [] d l h, writeKeys_nil]
      simp only [setPath]
  | k :: k2 :: rest, d, l, h => by
      obtain ⟨inner, hget, hrec⟩ := h
      have ih := writeKeys_pathToList v (k2 :: rest) inner l hrec
      rw [writeKeys_cons_obj true v k (k2 :: rest) d inner hget, ih]
      by_cases hc : l.contains v
      · rw [if_pos hc, if_pos hc]
        simp [alSet_of_alGet_eq d k (.obj inner) hget]
      · rw [if_neg hc, if_neg hc]
        simp only [Option.map_some', setPath, hget]

theorem pathToList_setPath :
    ∀ (keys : List String) (d : List (String × Val)) (l m : List Val),
      PathToList d keys l → PathToList (setPath d keys (.list m)) keys m
  | [], _, _, _, h => h.elim
  | [k], d, l, m, h => by
      simp only [PathToList, setPath] at *
      exact alGet_alSet_self d k (.list m)
  | k :: k2 :: rest, d, l, m, h => by
      obtain ⟨inner, hget, hrec⟩ := h
      refine ⟨setPath inner (k2 :: rest) (.list m), ?_, ?_⟩
      · simp only [setPath, hget]
        exact alGet_alSet_self d k _
      · exact pathToList_setPath (k2 :: rest) inner l m hrec

theorem getPath_of_pathToList :
    ∀ (keys : List String) (d : List (String × Val)) (l : List Val),
      PathToList d keys l → getPath d keys = some (.list l)
  | [], _, _, h => h.elim
  | [k], d, l, h => h
  | k :: k2 :: rest, d, l, h => by
      obtain ⟨inner, hget, hrec⟩ := h
      simp only [getPath, hget]
      exact getPath_of_pathToList (k2 :: rest) inner l hrec

/-- C7: writing the same replacement value twice in append-unique mode to a
target path holding a list results in a single occurrence of that value:
the first write appends it, the second write is a no-op on the document,
the existing elements keep their order (the final list is the original list
with the value appended once), and the value occurs exactly once. -/
theorem generic_resolver_append_unique (d : List (String × Val)) (keys : List String)
    (l : List Val) (v : Val) (hpath : PathToList d keys l)
    (hv : l.contains v = false) :
    writeKeys true v keys d = some (setPath d keys (.list (l ++ [v])), []) ∧
    writeKeys true v keys (setPath d keys (.list (l ++ [v]))) =
      some (setPath d keys (.list (l ++ [v])), []) ∧
    getPath (setPath d keys (.list (l ++ [v]))) keys = some (.list (l ++ [v])) ∧
    (l ++ [v]).count v = 1 := by
  have hnotmem : v ∉ l := by
    intro hmem
    have : l.contains v = true := List.elem_iff.mpr hmem
    rw [hv] at this
    exact Bool.false_ne_true this
  have h1 := writeKeys_pathToList v keys d l hpath
  rw [if_neg (by simp [hnotmem])] at h1
  have hpath' : PathToList (setPath d keys (.list (l ++ [v]))) keys (l ++ [v]) :=
    pathToList_setPath keys d l (l ++ [v]) hpath
  have h2 := writeKeys_pathToList v keys (setPath d keys (.list (l ++ [v]))) (l ++ [v]) hpath'
  have hcont : (l ++ [v]).contains v = true := List.elem_iff.mpr (by simp)
  rw [if_pos hcont] at h2
  refine ⟨h1, h2, getPath_of_pathToList keys _ _ hpath', ?_⟩
  rw [List.count_append, List.count_eq_zero.2 hnotmem]
  simp

/-- Witness for C7 at a concrete input: append-unique writes of the string
"v" to target path a.b holding the list ["x"]. -/
theorem generic_resolver_append_unique_witness :
    writeKeys true (.str "v") ["a", "b"] [("a", .obj [("b", .list [.str "x"])])] =
      some ([("a", .obj [("b", .list [.str "x", .str "v"])])], []) ∧
    writeKeys true (.str "v") ["a", "b"] [("a", .obj [("b", .list [.str "x", .str "v"])])] =
      some ([("a", .obj [("b", .list [.str "x", .str "v"])])], []) := by
  have h := generic_resolver_append_unique [("a", .obj [("b", .list [.str "x"])])]
    ["a", "b"] [.str "x"] (.str "v")
    ⟨[("b", .list [.str "x"])], rfl, rfl⟩ (by rfl)
  exact ⟨h.1, h.2.1⟩

/-- A value at the final key that the resolver's write treats as a conflict:
not a dict, and not a list in append mode (processor.py lines 131-138). -/
def conflictVal (append : Bool) : Val → Bool
  | .obj _ => false
  | .list _ => !append
  | _ => true

/-- The target path descends through existing objects and its final key holds
a conflicting value. -/
def FinalConflict (append : Bool) : List (String × Val) → List String → Prop
  | d, [k] => ∃ w, alGet d k = some w ∧ conflictVal append w = true
  | d, k :: k2 :: rest =>
      ∃ inner, alGet d k = some (.obj inner) ∧ FinalConflict append inner (k2 :: rest)
  | _, [] => False

theorem writeKeys_last_conflict (append : Bool) (v : Val) (k : String)
    (d : List (String × Val)) (w : Val) (hget : alGet d k = some w)
    (hw : conflictVal append w = true) :
    writeKeys append v [k] d = some (d, [k]) := by
  rw [writeKeys.eq_def]
  simp only [hget]
  cases w with
  | obj i => simp [conflictVal] at hw
  | list l =>
      cases append with
      | true => simp [conflictVal] at hw
      | false => simp [writeKeys]
  | str s => cases append <;> simp [writeKeys]
  | int n => cases append <;> simp [writeKeys]
  | bool b => cases append <;> simp [writeKeys]

/-- C4 (amended): for every resolver write whose conflict occurs at the final
key of the target path, with every earlier component present as a mapping,
the document is left completely unmodified by that mapping and the final key
component is recorded as the conflict.  (As stated, the claim fails: after
recording a conflict at an intermediate key the loop continues and creates
the remaining components beside the conflict point — see the counterexample —
and what is recorded is the key component, not the dotted path.) -/
theorem generic_resolver_final_conflict_frame :
    ∀ (keys : List String) (d : List (String × Val)) (append : Bool) (v : Val),
      FinalConflict append d keys →
      writeKeys append v keys d = some (d, [keys.getLastD ""])
  | [], _, _, _, h => h.elim
  | [k], d, append, v, h => by
      obtain ⟨w, hget, hw⟩ := h
      rw [writeKeys_last_conflict append v k d w hget hw]
      rfl
  | k :: k2 :: rest, d, append, v, h => by
      obtain ⟨inner, hget, hrec⟩ := h
      have ih := generic_resolver_final_conflict_frame (k2 :: rest) inner append v hrec
      rw [writeKeys_cons_obj append v k (k2 :: rest) d inner hget, ih]
      simp [alSet_of_alGet_eq d k (.obj inner) hget, List.getLastD_cons]

/-- Witness for C4 (amended) at a concrete input: a write of "v" to a.b where
a.b already holds the integer 5 leaves the document unchanged and records the
component "b". -/
theorem generic_resolver_final_conflict_frame_witness :
    writeKeys false (.str "v") ["a", "b"] [("a", .obj [("b", .int 5)])] =
      some ([("a", .obj [("b", .int 5)])], ["b"]) := by
  have h := generic_resolver_final_conflict_frame ["a", "b"]
    [("a", .obj [("b", .int 5)])] false (.str "v")
    ⟨[("b", .int 5)], rfl, ⟨.int 5, rfl, rfl⟩⟩
  simpa using h

/-- Counterexample to C4 as stated: the write of "v" to target path a.b on the
document with a = 5 records the conflict at "a" but does not stop: it creates
the key "b" — the final component of the mapping's target path — at the level
where the conflict occurred, so a key is created and the document is modified
by a conflicting write. -/
theorem generic_resolver_conflict_frame_counterexample :
    writeKeys false (.str "v") ["a", "b"] [("a", .int 5)] =
      some ([("a", .int 5), ("b", .str "v")], ["a"]) ∧
    alGet [(("a" : String), Val.int 5)] "b" = none := ⟨rfl, rfl⟩

/-- C6: evaluation of the code at the failing input.  In append mode with the
final target key "t" absent, the source line `dict_[key] = dict_.get('key', [])`
reads the literal name "key": when the containing mapping already has an entry
"key" holding the list ["a"], the target is set to that very list object and
the in-place append makes both entries ["a", "v"] — not the fresh
single-element list ["v"] the claim requires. -/
theorem generic_resolver_append_absent_literal_key_bug :
    writeKeys true (.str "v") ["t"] [("key", .list [.str "a"])] =
      some ([("key", .list [.str "a", .str "v"]),
             ("t", .list [.str "a", .str "v"])], []) ∧
    [Val.str "a", Val.str "v"] ≠ [Val.str "v"] := by
  refine ⟨rfl, ?_⟩
  simp

/-- Modelled from the spec: `_get_dotted_field_value` is provided by the base
processor (`logprep/processor/base/processor.py`), which is not among the
sources.  Per section 4.1 of the spec, `get` splits the path on periods and
descends, returning absent when an intermediate key is missing or the current
value is not a mapping.  The splitting is done by the caller here; this
function descends an already-split path. -/
def getDotted : Val → List String → Option Val
  | v, [] => some v
  | .obj d, k :: rest =>
      match alGet d k with
      | some v => getDotted v rest
      | none => none
  | _, _ :: _ => none

/-- One iteration of the resolver's field-mapping loop
(`GenericResolver._apply_rules`, processor.py lines 107-138): read the source
field, skip when absent or falsy, scan it (the automaton is abstracted as an
arbitrary function returning the matched pattern ids), skip when nothing
matched, otherwise write the resolved value to the target path.  Returns the
updated event and the conflict components recorded by this mapping. -/
def mappingStep (append : Bool) (scan : Val → List Nat) (idMap : Nat → Val)
    (src tgt : String) (event : List (String × Val)) :
    Option (List (String × Val) × List String) :=
  match getDotted (.obj event) (splitDot src) with
  | some sv =>
      if valTruthy sv then
        (let result := scan sv
         if result.isEmpty then some (event, [])
         else writeKeys append (resolvedValue idMap result) (splitDot tgt) event)
      else some (event, [])
  | none => some (event, [])

/-- The resolver's field-mapping loop over all mappings of a rule, in
declaration order, threading the mutated event and concatenating the
conflict components recorded by each mapping. -/
def processMappings (append : Bool) (scan : Val → List Nat) (idMap : Nat → Val) :
    List (String × String) → List (String × Val) →
    Option (List (String × Val) × List String)
  | [], event => some (event, [])
  | (src, tgt) :: rest, event =>
      match mappingStep append scan idMap src tgt event with
      | none => none
      | some (ev1, c1) =>
          match processMappings append scan idMap rest ev1 with
          | none => none
          | some (ev2, c2) => some (ev2, c1 ++ c2)

/-- The complete rule application (processor.py lines 102-141): run all field
mappings, then raise a single DuplicationError naming the recorded conflict
components if and only if any were recorded.  The result pairs the mutated
event (retained even when the error is raised — Python mutates in place) with
`some` of the error's field list, or `none` when no error is raised. -/
def applyRules (append : Bool) (scan : Val → List Nat) (idMap : Nat → Val)
    (mappings : List (String × String)) (event : List (String × Val)) :
    Option (List (String × Val) × Option (List String)) :=
  match processMappings append scan idMap mappings event with
  | none => none
  | some (ev, confl) => some (ev, if confl.isEmpty then none else some confl)

/-- C3 (amended): the resolver attempts all field mappings even when earlier
mappings produced conflicts — processing a concatenation of mappings equals
processing the first part and then the second on the resulting event, with the
recorded conflict components concatenated — and, whenever the application
completes without a type error, exactly one DuplicationError is raised at the
end if and only if the recorded conflict set is non-empty; the error names the
key components at which the conflicts occurred (not the full dotted target
paths — see the counterexample) and the event retains the mutations made by
the successful mappings. -/
theorem generic_resolver_best_effort (append : Bool) (scan : Val → List Nat)
    (idMap : Nat → Val) (l1 l2 : List (String × String)) (ev : List (String × Val)) :
    (processMappings append scan idMap (l1 ++ l2) ev =
      (processMappings append scan idMap l1 ev).bind
        (fun p => (processMappings append scan idMap l2 p.1).map
          (fun q => (q.1, p.2 ++ q.2)))) ∧
    (∀ ev' confl, processMappings append scan idMap (l1 ++ l2) ev = some (ev', confl) →
       applyRules append scan idMap (l1 ++ l2) ev =
         some (ev', if confl.isEmpty then none else some confl)) := by
  constructor
  · induction l1 generalizing ev with
    | nil =>
        rw [List.nil_append]
        cases h : processMappings append scan idMap l2 ev with
        | none => simp [processMappings, h]
        | some q =>
            cases q
            simp [processMappings, h]
    | cons hd tl ih =>
        obtain ⟨src, tgt⟩ := hd
        rw [List.cons_append]
        cases hs : mappingStep append scan idMap src tgt ev with
        | none => simp [processMappings, hs]
        | some p =>
            obtain ⟨ev1, c1⟩ := p
            simp only [processMappings, hs]
            rw [ih ev1]
            cases h1 : processMappings append scan idMap tl ev1 with
            | none => simp
            | some q =>
                obtain ⟨ev2, c2⟩ := q
                cases h2 : processMappings append scan idMap l2 ev2 with
                | none => simp [h2]
                | some r =>
                    obtain ⟨ev3, c3⟩ := r
                    simp [h2, List.append_assoc]
  · intro ev' confl h
    simp [applyRules, h]

/-- Witness for C3 at a concrete input: two mappings whose targets both hold
pre-existing scalars; both are attempted, both conflicts are recorded, and
the single error at the end names both components. -/
theorem generic_resolver_best_effort_witness :
    applyRules false (fun _ => [0]) (fun _ => .str "R")
      ([("s", "a")] ++ [("s", "b")])
      [("s", .str "x"), ("a", .int 1), ("b", .int 2)] =
      some ([("s", .str "x"), ("a", .int 1), ("b", .int 2)], some ["a", "b"]) := by
  have h := generic_resolver_best_effort false (fun _ => [0]) (fun _ => .str "R")
    [("s", "a")] [("s", "b")] [("s", .str "x"), ("a", .int 1), ("b", .int 2)]
  exact h.2 [("s", .str "x"), ("a", .int 1), ("b", .int 2)] ["a", "b"] (by rfl)

/-- Counterexample to C3 as stated: a single mapping targeting the dotted path
a.b whose final key holds a scalar records the conflict as the key component
"b"; the raised DuplicationError therefore names "b" and not the conflicting
target field path "a.b". -/
theorem generic_resolver_duplication_naming_counterexample :
    applyRules false (fun _ => [0]) (fun _ => .str "R") [("src", "a.b")]
      [("src", .str "x"), ("a", .obj [("b", .int 5)])] =
      some ([("src", .str "x"), ("a", .obj [("b", .int 5)])], some ["b"]) ∧
    ("a.b" : String) ∉ (["b"] : List String) := by
  refine ⟨rfl, ?_⟩
  simp

/-- Python list slicing `l[:-k]` for a non-negative `k`: for positive `k` it
takes all but the last `k` elements (empty when `k` is at least the length),
but for `k = 0` the slice `l[:-0]` is `l[:0]`, the EMPTY list. -/
def pySliceTakeNeg {α : Type} (l : List α) (k : Nat) : List α :=
  if k = 0 then [] else l.take (l.length - k)

/-- Python list slicing `l[-k:]` for a non-negative `k`: for positive `k` it
takes the last `k` elements (all of them when `k` is at least the length),
but for `k = 0` the slice `l[-0:]` is `l[0:]`, the WHOLE list. -/
def pySliceDropNeg {α : Type} (l : List α) (k : Nat) : List α :=
  if k = 0 then l else l.drop (l.length - k)

/-- Python `"-".join(parts)`. -/
def joinDash : List String → String
  | [] => ""
  | [s] => s
  | s :: s2 :: rest => s ++ "-" ++ joinDash (s2 :: rest)

/-- The template replacer's recombination of the tokens of one composite key
(`TemplateReplacer.__init__`, processor.py lines 68-75), transcribed with
Python's slicing semantics: with `F` fields and `A = allow_delimiter_index`,
`left = tokens[:A]`, the remainder is sliced as `[:-(F-A-1)]` and
`[-(F-A-1):]`, and the middle is rejoined with a literal "-". -/
def recombineKeys (F A : Nat) (tokens : List String) : List String :=
  let left := tokens.take A
  let mr := tokens.drop A
  let k := F - A - 1
  left ++ [joinDash (pySliceTakeNeg mr k)] ++ pySliceDropNeg mr k

/-- Processing one template entry's composite key at construction time
(processor.py lines 67-81): split on the configured delimiter, recombine, and
raise a TemplateReplacerError — whose message names the template path and the
configured fields — when the recombined list does not have exactly as many
elements as there are fields. -/
def buildEntryKeys (templatePath : String) (fields : List String) (A : Nat)
    (delim : Char) (key : String) : Except (String × List String) (List String) :=
  let recombined := recombineKeys fields.length A (splitChar delim key)
  if recombined.length ≠ fields.length then .error (templatePath, fields)
  else .ok recombined

/-- Counterexample to C2 as stated: with fields ["a", "b"] (so F = 2) and
allowDelimiterFieldIndex A = 1 = F - 1 (a value the claim admits), the key
"foo-bar" splits into exactly F = 2 tokens and yet construction fails,
because Python's `[:-0]` slice makes the middle empty and `[-0:]` makes the
right part hold both tokens, recombining to 3 elements.  Also visible: the
error names the template path and the fields, not the offending composite
key and the expected count. -/
theorem template_recombine_counterexample :
    buildEntryKeys "tpl.yml" ["a", "b"] 1 '-' "foo-bar" =
      .error ("tpl.yml", ["a", "b"]) ∧
    (splitChar '-' "foo-bar").length = 2 ∧
    recombineKeys 2 1 (splitChar '-' "foo-bar") = ["foo", "", "bar"] := by
  exact ⟨rfl, rfl, rfl⟩

/-- C2 (amended): for every configuration with F fields and delimiter-tolerant
field index A at most F - 2, the construction partitions the tokens of a
composite key as the spec describes — left = tokens[0:A], right = the last
F-A-1 tokens, middle = the remaining tokens (token counts of at least F - 1) —
recombines them as left ++ [join(middle, "-")] ++ right, fails with the
TemplateReplacerError (naming the template path and the fields) exactly when
the recombined list does not have F elements, and a key splitting into exactly
F tokens recombines to itself and never fails.  (For A = F - 1 the claim is
false — see the counterexample.) -/
theorem template_recombine_partition (fields : List String) (A : Nat)
    (delim : Char) (key : String) (templatePath : String)
    (hA : A + 1 < fields.length) :
    (pySliceTakeNeg ((splitChar delim key).drop A) (fields.length - A - 1) =
      ((splitChar delim key).take ((splitChar delim key).length - (fields.length - A - 1))).drop A) ∧
    ((splitChar delim key).length ≥ fields.length - 1 →
      pySliceDropNeg ((splitChar delim key).drop A) (fields.length - A - 1) =
        (splitChar delim key).drop ((splitChar delim key).length - (fields.length - A - 1))) ∧
    (buildEntryKeys templatePath fields A delim key = .error (templatePath, fields) ↔
      (recombineKeys fields.length A (splitChar delim key)).length ≠ fields.length) ∧
    ((splitChar delim key).length = fields.length →
      recombineKeys fields.length A (splitChar delim key) = splitChar delim key ∧
      buildEntryKeys templatePath fields A delim key =
        .ok (splitChar delim key)) := by
  set ts := splitChar delim key with hts
  have hk : fields.length - A - 1 ≠ 0 := by omega
  refine ⟨?_, ?_, ?_, ?_⟩
  · rw [pySliceTakeNeg, if_neg hk, List.drop_take, List.length_drop]
    congr 1
    omega
  · intro hlen
    have hidx : A + ((ts.drop A).length - (fields.length - A - 1)) =
        ts.length - (fields.length - A - 1) := by
      rw [List.length_drop]
      omega
    rw [pySliceDropNeg, if_neg hk, List.drop_drop, hidx]
  · rw [buildEntryKeys]
    by_cases h : (recombineKeys fields.length A ts).length = fields.length
    · simp [h]
    · simp [h]
  · intro hlen
    have hreco : recombineKeys fields.length A ts = ts := by
      have hmr : ts.drop A ≠ [] := by
        intro hnil
        have := List.length_drop A ts
        rw [hnil] at this
        simp at this
        omega
      obtain ⟨hd, tl, hcons⟩ := List.exists_cons_of_ne_nil hmr
      have hmrlen : (ts.drop A).length = fields.length - A := by
        rw [List.length_drop, hlen]
      have htake : pySliceTakeNeg (ts.drop A) (fields.length - A - 1) = [hd] := by
        rw [pySliceTakeNeg, if_neg hk, hmrlen]
        have h1 : fields.length - A - (fields.length - A - 1) = 1 := by omega
        rw [h1, hcons]
        rfl
      have hdrop : pySliceDropNeg (ts.drop A) (fields.length - A - 1) = tl := by
        rw [pySliceDropNeg, if_neg hk, hmrlen]
        have h1 : fields.length - A - (fields.length - A - 1) = 1 := by omega
        rw [h1, hcons]
        rfl
      rw [recombineKeys]
      simp only [htake, hdrop, joinDash]
      rw [List.append_assoc, List.singleton_append, ← hcons, List.take_append_drop]
    refine ⟨hreco, ?_⟩
    rw [buildEntryKeys]
    simp [hreco, hlen]

/-- Witness for C2 (amended) at a concrete input: fields ["a", "b", "c"] with
A = 0, key "x-y-z" splits into 3 tokens and recombines to itself, succeeding. -/
theorem template_recombine_partition_witness :
    (0 + 1 < (["a", "b", "c"] : List String).length) ∧
    buildEntryKeys "tpl.yml" ["a", "b", "c"] 0 '-' "x-y-z" =
      .ok ["x", "y", "z"] := by
  refine ⟨by decide, ?_⟩
  have h := template_recombine_partition ["a", "b", "c"] 0 '-' "x-y-z" "tpl.yml"
    (by decide)
  have h4 := (h.2.2.2 (by rfl)).2
  rw [h4]
  rfl


/-- The template-index insertion of one entry (`TemplateReplacer.__init__`,
processor.py lines 83-91), transcribed literally over an already-recombined
key list of length F: at an intermediate key the existing entry is replaced by
a fresh empty dict when missing or falsy (`if not _dict.get(recombined_key)`),
and is then descended into — `none` models the crash when the entry is a
truthy non-dict; the final key is assigned the entry's value, overwriting any
previous one. -/
def trieInsert : Val → List String → Val → Option Val
  | .obj d, [k], v => some (.obj (alSet d k v))
  | .obj d, k :: k2 :: rest, v =>
      (let sub := match alGet d k with
                  | none => Val.obj []
                  | some s => if valTruthy s then s else Val.obj []
       match trieInsert sub (k2 :: rest) v with
       | some s => some (.obj (alSet d k s))
       | none => none)
  | _, _, _ => none

/-- Descending the built template index one level per key, as the lookup loop
of `TemplateReplacer._apply_rules` does with the events' stringified field
values. -/
def trieLookup : Val → List String → Option Val
  | v, [] => some v
  | .obj d, k :: rest =>
      (match alGet d k with
       | some v => trieLookup v rest
       | none => none)
  | _, _ :: _ => none

theorem trieInsert_shape (t v r : Val) :
    ∀ keys, trieInsert t keys v = some r → ∃ dr, r = .obj dr ∧ dr ≠ []
  | [], h => by
      cases t <;> simp [trieInsert] at h
  | [k], h => by
      cases t with
      | obj d =>
          simp only [trieInsert, Option.some.injEq] at h
          exact ⟨alSet d k v, h.symm, alSet_ne_nil d k v⟩
      | str s => simp [trieInsert] at h
      | int n => simp [trieInsert] at h
      | bool b => simp [trieInsert] at h
      | list l => simp [trieInsert] at h
  | k :: k2 :: rest, h => by
      cases t with
      | obj d =>
          simp only [trieInsert] at h
          cases hrec : trieInsert
              (match alGet d k with
               | none => Val.obj []
               | some s => if valTruthy s then s else Val.obj []) (k2 :: rest) v with
          | none => rw [hrec] at h; exact absurd h (by simp)
          | some s =>
              rw [hrec] at h
              simp only [Option.some.injEq] at h
              exact ⟨alSet d k s, h.symm, alSet_ne_nil d k s⟩
      | str s => simp [trieInsert] at h
      | int n => simp [trieInsert] at h
      | bool b => simp [trieInsert] at h
      | list l => simp [trieInsert] at h

/-- C10: when two entries of the template file recombine to the same key
sequence, inserting them in template-file iteration order makes the later
entry's value overwrite the earlier one in the built index, so a subsequent
lookup of those keys returns the last entry's value. -/
theorem template_index_last_wins :
    ∀ (keys : List String) (t t1 t2 v1 v2 : Val),
      trieInsert t keys v1 = some t1 → trieInsert t1 keys v2 = some t2 →
      trieLookup t2 keys = some v2
  | [], t, t1, t2, v1, v2, h1, h2 => by
      cases t <;> simp [trieInsert] at h1
  | [k], t, t1, t2, v1, v2, h1, h2 => by
      cases t with
      | obj d =>
          simp only [trieInsert, Option.some.injEq] at h1
          subst h1
          simp only [trieInsert, Option.some.injEq] at h2
          subst h2
          simp [trieLookup, alGet_alSet_self]
      | str s => simp [trieInsert] at h1
      | int n => simp [trieInsert] at h1
      | bool b => simp [trieInsert] at h1
      | list l => simp [trieInsert] at h1
  | k :: k2 :: rest, t, t1, t2, v1, v2, h1, h2 => by
      cases t with
      | obj d =>
          simp only [trieInsert] at h1
          cases hrec : trieInsert
              (match alGet d k with
               | none => Val.obj []
               | some s => if valTruthy s then s else Val.obj []) (k2 :: rest) v1 with
          | none => rw [hrec] at h1; exact absurd h1 (by simp)
          | some s1 =>
              rw [hrec] at h1
              simp only [Option.some.injEq] at h1
              subst h1
              obtain ⟨ds1, hds1, hne1⟩ := trieInsert_shape _ v1 s1 (k2 :: rest) hrec
              have hget1 : alGet (alSet d k s1) k = some s1 := alGet_alSet_self d k s1
              have htruthy : valTruthy s1 = true := by
                rw [hds1, valTruthy]
                simp [hne1]
              simp only [trieInsert, hget1, htruthy, if_pos] at h2
              cases hrec2 : trieInsert s1 (k2 :: rest) v2 with
              | none => rw [hrec2] at h2; exact absurd h2 (by simp)
              | some s2 =>
                  rw [hrec2] at h2
                  simp only [Option.some.injEq] at h2
                  subst h2
                  have hgets2 : alGet (alSet (alSet d k s1) k s2) k = some s2 :=
                    alGet_alSet_self _ k s2
                  simp only [trieLookup, hgets2]
                  exact template_index_last_wins (k2 :: rest) _ s1 s2 v1 v2 hrec hrec2
      | str s => simp [trieInsert] at h1
      | int n => simp [trieInsert] at h1
      | bool b => simp [trieInsert] at h1
      | list l => simp [trieInsert] at h1

/-- Witness for C10 at a concrete input: two entries both recombining to keys
["x", "y"]; the lookup returns the second value "second". -/
theorem template_index_last_wins_witness :
    trieLookup (.obj [("x", .obj [("y", .str "second")])]) ["x", "y"] =
      some (.str "second") := by
  exact template_index_last_wins ["x", "y"] (.obj []) (.obj [("x", .obj [("y", .str "first")])])
    (.obj [("x", .obj [("y", .str "second")])]) (.str "first") (.str "second") rfl rfl


/-- Leading-part test on character lists (worker for `charsHasSub`). -/
def charsHasPre : List Char → List Char → Bool
  | [], _ => true
  | _ :: _, [] => false
  | a :: as, b :: bs => a == b && charsHasPre as bs

/-- Substring test on character lists (worker for `strHasSub`). -/
def charsHasSub (needle : List Char) : List Char → Bool
  | [] => charsHasPre needle []
  | c :: rest => charsHasPre needle (c :: rest) || charsHasSub needle rest

/-- Python `sub in s` on strings: substring containment. -/
def strHasSub (s sub : String) : Bool := charsHasSub sub.toList s.toList

/-- Python `str(value)` for the scalar document values the template lookup
stringifies; container values would render as Python reprs, which no template
key matches in the claims considered, so they map to a fixed marker here. -/
def valStr : Val → String
  | .str s => s
  | .int n => toString n
  | .bool b => if b then "True" else "False"
  | .list _ => "<list-repr>"
  | .obj _ => "<dict-repr>"

/-- Python `field in value` as used by `TemplateReplacer._field_exists`
(processor.py line 172): key membership on dicts, substring test on strings,
element membership on lists — and a TypeError (`.error`) on integers and
booleans, which are not iterable. -/
def pyInVal (field : String) : Val → Except Unit Bool
  | .obj d => .ok (alGet d field).isSome
  | .str s => .ok (strHasSub s field)
  | .list l => .ok (l.any (fun x => match x with | .str t => t == field | _ => false))
  | .int _ => .error ()
  | .bool _ => .error ()

/-- Python `value[field]` with a string index (processor.py lines 164, 173):
lookup on dicts (KeyError when missing), TypeError on everything else. -/
def pyGetItem : Val → String → Except Unit Val
  | .obj d, field =>
      (match alGet d field with
       | some w => .ok w
       | none => .error ())
  | _, _ => .error ()

/-- `TemplateReplacer._field_exists` (processor.py lines 167-176), transcribed
literally: walk the split path with Python `in` and indexing; `.error` models
the TypeError raised when an intermediate value is not a mapping (or the
substring/membership test hits a non-indexable value). -/
def fieldExists : Val → List String → Except Unit Bool
  | _, [] => .ok true
  | v, f :: rest =>
      (match pyInVal f v with
       | .error e => .error e
       | .ok true =>
           (match pyGetItem v f with
            | .error e => .error e
            | .ok v2 => fieldExists v2 rest)
       | .ok false => .ok false)

/-- The write of the payload to the target path (processor.py lines 162-165):
descend `_event = _event[subfield]` through the split path and assign the
final component; `.error` models the KeyError/TypeError raised when the
descent hits a missing key or a non-mapping. -/
def writeTarget : Val → List String → Val → Except Unit Val
  | .obj d, [k], payload => .ok (.obj (alSet d k payload))
  | .obj d, k :: k2 :: rest, payload =>
      (match alGet d k with
       | some sub =>
           (match writeTarget sub (k2 :: rest) payload with
            | .ok sub2 => .ok (.obj (alSet d k sub2))
            | .error e => .error e)
       | none => .error ())
  | _, _, _ => .error ()

/-- The lookup loop of `TemplateReplacer._apply_rules` (processor.py lines
149-158): for each configured field in order, read its dotted value from the
event (returning `ok none`, no change, when absent) and descend the template
index by the stringified value (`ok none` when the level lacks the key);
`.error` models the AttributeError when the index level is not a mapping. -/
def walkFields (event : Val) : List String → Val → Except Unit (Option Val)
  | [], m => .ok (some m)
  | f :: rest, m =>
      (match getDotted event (splitDot f) with
       | none => .ok none
       | some v =>
           (match m with
            | .obj d =>
                (match alGet d (valStr v) with
                 | none => .ok none
                 | some m2 => walkFields event rest m2)
            | _ => .error ()))

/-- The complete template-lookup application (`TemplateReplacer._apply_rules`,
processor.py lines 148-165): resolve all configured fields through the index;
on success, write the payload to the target field only if `_field_exists`
says the path exists, otherwise leave the event unchanged. -/
def applyRulesTR (mapping : Val) (fields : List String) (targetField : String)
    (event : Val) : Except Unit Val :=
  match walkFields event fields mapping with
  | .error e => .error e
  | .ok none => .ok event
  | .ok (some payload) =>
      (match fieldExists event (splitDot targetField) with
       | .error e => .error e
       | .ok true => writeTarget event (splitDot targetField) payload
       | .ok false => .ok event)

/-- Counterexample to C5 as stated: all configured fields resolve through the
index, the target path a.b does not exist, and the intermediate component a
holds the non-mapping value 5 — the claim says the event is left unchanged
with no error, but `_field_exists` evaluates `"b" in 5` and raises a
TypeError. -/
theorem template_lookup_nonmapping_counterexample :
    applyRulesTR (.obj [("x", .str "Z")]) ["f"] "a.b"
      (.obj [("f", .str "x"), ("a", .int 5)]) = .error () := rfl

/-- The target-path traversal of the event meets only mappings until a key is
missing or the path is exhausted (the regime in which `_field_exists` cannot
raise). -/
def safePath : Val → List String → Bool
  | _, [] => true
  | .obj d, k :: rest =>
      (match alGet d k with
       | none => true
       | some v => safePath v rest)
  | _, _ :: _ => false

theorem fieldExists_of_safePath :
    ∀ (keys : List String) (v : Val), safePath v keys = true →
      fieldExists v keys = .ok (getDotted v keys).isSome
  | [], v, _ => by simp [fieldExists, getDotted]
  | f :: rest, v, hsafe => by
      cases v with
      | obj d =>
          simp only [safePath] at hsafe
          cases hget : alGet d f with
          | none =>
              rw [hget] at hsafe
              simp [fieldExists, pyInVal, pyGetItem, hget, getDotted]
          | some w =>
              rw [hget] at hsafe
              have ih := fieldExists_of_safePath rest w hsafe
              simp [fieldExists, pyInVal, pyGetItem, hget, getDotted, ih]
      | str s => simp [safePath] at hsafe
      | int n => simp [safePath] at hsafe
      | bool b => simp [safePath] at hsafe
      | list l => simp [safePath] at hsafe

theorem writeTarget_of_exists :
    ∀ (keys : List String) (d : List (String × Val)) (x payload : Val),
      getDotted (.obj d) keys = some x → keys ≠ [] →
      writeTarget (.obj d) keys payload = .ok (.obj (setPath d keys payload))
  | [], _, _, _, _, hne => absurd rfl hne
  | [k], d, x, payload, hget, _ => by
      simp [writeTarget, setPath]
  | k :: k2 :: rest, d, x, payload, hget, _ => by
      simp only [getDotted] at hget
      cases halk : alGet d k with
      | none => rw [halk] at hget; exact absurd hget (by simp)
      | some w =>
          rw [halk] at hget
          cases w with
          | obj di =>
              have ih := writeTarget_of_exists (k2 :: rest) di x payload hget (by simp)
              simp only [writeTarget, halk, ih, setPath]
          | str s => simp [getDotted] at hget
          | int n => simp [getDotted] at hget
          | bool b => simp [getDotted] at hget
          | list l => simp [getDotted] at hget

theorem splitCharAux_ne_nil (sep : Char) :
    ∀ (cs acc : List Char), splitCharAux sep cs acc ≠ []
  | [], acc => by simp [splitCharAux]
  | c :: cs, acc => by
      by_cases h : c = sep
      · simp [splitCharAux, h]
      · simp only [splitCharAux, if_neg h]
        exact splitCharAux_ne_nil sep cs (c :: acc)

/-- C5 (amended): for every template-lookup application whose configured
fields all resolve through the index, and whose target-field path traverses
only mappings in the event, the payload is written to the target field only if
that dotted path already exists in the event; if the path does not exist, the
event is left unchanged and no error is raised.  (For events where an
intermediate component of the target path holds a non-mapping value the claim
is false: the existence test can raise a TypeError — see the
counterexample.) -/
theorem template_lookup_existing_target (mapping : Val) (fields : List String)
    (targetField : String) (event : List (String × Val)) (payload : Val)
    (hwalk : walkFields (.obj event) fields mapping = .ok (some payload))
    (hsafe : safePath (.obj event) (splitDot targetField) = true) :
    (getDotted (.obj event) (splitDot targetField) = none →
        applyRulesTR mapping fields targetField (.obj event) = .ok (.obj event)) ∧
    (∀ x, getDotted (.obj event) (splitDot targetField) = some x →
        applyRulesTR mapping fields targetField (.obj event) =
          .ok (.obj (setPath event (splitDot targetField) payload))) := by
  have hfe := fieldExists_of_safePath (splitDot targetField) (.obj event) hsafe
  constructor
  · intro hnone
    rw [hnone] at hfe
    simp only [applyRulesTR, hwalk, hfe, Option.isSome_none]
  · intro x hsome
    rw [hsome] at hfe
    have hw := writeTarget_of_exists (splitDot targetField) event x payload hsome
      (splitCharAux_ne_nil '.' targetField.toList [])
    simp only [applyRulesTR, hwalk, hfe, Option.isSome_some, hw]

/-- Witness for C5 (amended) at a concrete input: fields ["f"], event
f = "x" and an existing target field t = "old"; the index maps "x" to "Z",
and the target is rewritten to "Z". -/
theorem template_lookup_existing_target_witness :
    applyRulesTR (.obj [("x", .str "Z")]) ["f"] "t"
      (.obj [("f", .str "x"), ("t", .str "old")]) =
      .ok (.obj [("f", .str "x"), ("t", .str "Z")]) := by
  have h := template_lookup_existing_target (.obj [("x", .str "Z")]) ["f"] "t"
    [("f", .str "x"), ("t", .str "old")] (.str "Z") rfl rfl
  exact (h.2 (.str "old") rfl).trans (by rfl)


/-- The hyperscan `HS_FLAG_CASELESS` flag value. -/
def hsFlagCaseless : Nat := 1

/-- The hyperscan `HS_FLAG_SINGLEMATCH` flag value. -/
def hsFlagSinglematch : Nat := 8

/-- A hyperscan database: either deserialized from a persisted blob
(`loadb(data)`) or compiled from a pattern list with per-pattern ids and
flags. -/
inductive HsDb where
  | loaded : String → HsDb
  | compiled : List (String × Nat × Nat) → HsDb

/-- One in-memory cache entry of `GenericResolver._hyperscan_databases`:
the database and the pattern-id-to-replacement mapping. -/
structure CacheEntry where
  db : HsDb
  valueMapping : List (Nat × Val)

/-- The rule attributes consumed by `_get_hyperscan_database`. -/
structure ResolverRule where
  fileName : String
  resolveList : List (String × Val)
  storeDbPersistent : Bool

/-- The observable filesystem / compilation effects of one acquire. -/
inductive StoreEffect where
  | load
  | compileDb
  | persist
deriving DecidableEq

/-- Python `resolve_list[pattern]` (the pattern is always a key, so the
default is never observed for the dict-shaped rule inputs). -/
def resolveGet (rl : List (String × Val)) (p : String) : Val :=
  (alGet rl p).getD (.str "")

/-- The pattern list built by the loop of `GenericResolver._create_database`
(processor.py lines 185-186): each pattern paired with its enumeration index
and the caseless/single-match flags. -/
def createDbPatterns (rl : List (String × Val)) : List (String × Nat × Nat) :=
  rl.enum.map (fun e => (e.2.1, e.1, hsFlagSinglematch ||| hsFlagCaseless))

/-- The id-to-value mapping built by the loops of `_create_database` (line
187) and `_load_database` (lines 168-169): `value_mapping[idx] =
resolve_list[pattern]` over the enumerated keys. -/
def createValueMapping (rl : List (String × Val)) : List (Nat × Val) :=
  rl.enum.map (fun e => (e.1, resolveGet rl e.2.1))

/-- `GenericResolver._create_database` (processor.py lines 180-197): build the
pattern list and value mapping, fail with the GenericResolverError message
when there is no pattern, otherwise compile. -/
def createDatabase (rl : List (String × Val)) :
    Except String (HsDb × List (Nat × Val)) :=
  let dbPatterns := createDbPatterns rl
  let valueMapping := createValueMapping rl
  if dbPatterns.isEmpty then .error "No patter to compile for hyperscan database!"
  else .ok (.compiled dbPatterns, valueMapping)

/-- `GenericResolver._load_database` (processor.py lines 162-171) after a
successful read of the persisted blob: deserialize it and rebuild the value
mapping from the rule's current resolve list. -/
def loadDatabase (blob : String) (rl : List (String × Val)) :
    HsDb × List (Nat × Val) :=
  (.loaded blob, createValueMapping rl)

/-- `GenericResolver._get_hyperscan_database` (processor.py lines 143-160):
return the cached entry when the rule's file identity is cached; otherwise
try to load the persisted database (the filesystem is abstracted as a partial
map from identity to blob, `none` modelling FileNotFoundError), falling back
to compilation, persisting only when the rule requests it, and populate the
cache.  The effect list records which of load/compile/persist happened. -/
def getHyperscanDatabase (cache : List (String × CacheEntry)) (rule : ResolverRule)
    (fs : String → Option String) :
    Except String (CacheEntry × List (String × CacheEntry) × List StoreEffect) :=
  match alGet cache rule.fileName with
  | some e => .ok (e, cache, [])
  | none =>
      match fs rule.fileName with
      | some blob =>
          let p := loadDatabase blob rule.resolveList
          .ok (⟨p.1, p.2⟩, alSet cache rule.fileName ⟨p.1, p.2⟩, [.load])
      | none =>
          match createDatabase rule.resolveList with
          | .error s => .error s
          | .ok p =>
              .ok (⟨p.1, p.2⟩, alSet cache rule.fileName ⟨p.1, p.2⟩,
                if rule.storeDbPersistent then [.compileDb, .persist]
                else [.compileDb])

theorem createDbPatterns_isEmpty (rl : List (String × Val)) :
    (createDbPatterns rl).isEmpty = rl.isEmpty := by
  cases rl with
  | nil => rfl
  | cons hd tl => rfl

theorem createDatabase_eq_ok (rl : List (String × Val)) (h : rl ≠ []) :
    createDatabase rl = .ok (.compiled (createDbPatterns rl), createValueMapping rl) := by
  rw [createDatabase]
  rw [createDbPatterns_isEmpty]
  simp [h]

theorem alGet_of_mem_nodup (rl : List (String × Val)) (k : String) (v : Val)
    (hnodup : (rl.map Prod.fst).Nodup) (hmem : (k, v) ∈ rl) : alGet rl k = some v := by
  induction rl with
  | nil => simp at hmem
  | cons hd tl ih =>
      obtain ⟨k0, v0⟩ := hd
      rw [List.map_cons, List.nodup_cons] at hnodup
      rcases List.mem_cons.1 hmem with h | h
      · have hk : k = k0 := congrArg Prod.fst h
        have hv : v0 = v := (congrArg Prod.snd h).symm
        rw [alGet, if_pos hk.symm, hv]
      · have hne : k0 ≠ k := by
          intro he
          subst he
          exact hnodup.1 (List.mem_map.2 ⟨(k0, v), h, rfl⟩)
        rw [alGet, if_neg hne]
        exact ih hnodup.2 h

/-- C9: compiling a pattern database fails (with the GenericResolverError) if
and only if the rule's resolve list is empty; for every non-empty resolve
list with distinct patterns (a Python dict), compilation succeeds, assigns
each pattern the id equal to its ordinal position in the resolve list's
iteration order, and builds the id-to-value mapping in that same order. -/
theorem generic_resolver_compile_ids (rl : List (String × Val))
    (hnodup : (rl.map Prod.fst).Nodup) :
    ((∃ msg, createDatabase rl = .error msg) ↔ rl = []) ∧
    (rl ≠ [] →
      createDatabase rl = .ok (.compiled (createDbPatterns rl), createValueMapping rl) ∧
      (∀ (i : Nat) (h : i < rl.length),
        (createDbPatterns rl).get? i =
          some ((rl.get ⟨i, h⟩).1, i, hsFlagSinglematch ||| hsFlagCaseless) ∧
        (createValueMapping rl).get? i = some (i, (rl.get ⟨i, h⟩).2))) := by
  constructor
  · constructor
    · rintro ⟨msg, hmsg⟩
      by_contra hne
      rw [createDatabase_eq_ok rl hne] at hmsg
      exact absurd hmsg (by simp)
    · intro h
      subst h
      exact ⟨"No patter to compile for hyperscan database!", rfl⟩
  · intro hne
    refine ⟨createDatabase_eq_ok rl hne, ?_⟩
    intro i h
    have henum : rl.enum.get? i = some (i, rl.get ⟨i, h⟩) := by
      rw [List.enum_get?, List.get?_eq_get h]
      rfl
    constructor
    · rw [createDbPatterns, List.get?_map, henum]
      rfl
    · rw [createValueMapping, List.get?_map, henum]
      have hres : resolveGet rl (rl.get ⟨i, h⟩).1 = (rl.get ⟨i, h⟩).2 := by
        rw [resolveGet, alGet_of_mem_nodup rl _ _ hnodup]
        · rfl
        · exact List.get_mem rl i h
      simp only [Option.map_some']
      rw [hres]

/-- Witness for C9 at a concrete input: a two-pattern resolve list compiles
with ids 0 and 1 in declaration order. -/
theorem generic_resolver_compile_ids_witness :
    createDatabase [("a", Val.str "A"), ("b", Val.str "B")] =
      .ok (.compiled [("a", 0, 9), ("b", 1, 9)], [(0, Val.str "A"), (1, Val.str "B")]) := by
  have h := generic_resolver_compile_ids [("a", Val.str "A"), ("b", Val.str "B")]
    (by simp)
  have h2 := (h.2 (by simp)).1
  rw [h2]
  rfl

/-- C8: the first acquire for a file identity populates the in-memory cache —
by load when the persisted file exists, otherwise by compile, persisting only
when the rule's storeDbPersistent flag is set — and every later acquire for
the same identity returns the cached database and id-to-value mapping with no
load, compile or persist effect at all (for any state of the filesystem);
entries already in the cache are never invalidated, rebuilt or changed by any
acquire. -/
theorem generic_resolver_cache_lifecycle (cache : List (String × CacheEntry))
    (rule : ResolverRule) (fs fs2 : String → Option String) :
    (∀ e, alGet cache rule.fileName = some e →
        getHyperscanDatabase cache rule fs = .ok (e, cache, [])) ∧
    (alGet cache rule.fileName = none → ∀ blob, fs rule.fileName = some blob →
        getHyperscanDatabase cache rule fs =
          .ok (⟨.loaded blob, createValueMapping rule.resolveList⟩,
            alSet cache rule.fileName
              ⟨.loaded blob, createValueMapping rule.resolveList⟩, [.load])) ∧
    (alGet cache rule.fileName = none → fs rule.fileName = none →
      rule.resolveList ≠ [] →
        getHyperscanDatabase cache rule fs =
          .ok (⟨.compiled (createDbPatterns rule.resolveList),
                createValueMapping rule.resolveList⟩,
            alSet cache rule.fileName
              ⟨.compiled (createDbPatterns rule.resolveList),
                createValueMapping rule.resolveList⟩,
            if rule.storeDbPersistent then [.compileDb, .persist]
            else [.compileDb])) ∧
    (∀ e c2 effs, getHyperscanDatabase cache rule fs = .ok (e, c2, effs) →
        (∀ id2 e2, alGet cache id2 = some e2 → alGet c2 id2 = some e2) ∧
        getHyperscanDatabase c2 rule fs2 = .ok (e, c2, [])) := by
  refine ⟨?_, ?_, ?_, ?_⟩
  · intro e he
    rw [getHyperscanDatabase, he]
  · intro hnone blob hblob
    rw [getHyperscanDatabase, hnone, hblob]
    rfl
  · intro hnone hfs hne
    rw [getHyperscanDatabase, hnone, hfs, createDatabase_eq_ok rule.resolveList hne]
  · intro e c2 effs hok
    cases he : alGet cache rule.fileName with
    | some e0 =>
        rw [getHyperscanDatabase, he] at hok
        simp only [Except.ok.injEq, Prod.mk.injEq] at hok
        obtain ⟨he0, hc2, _⟩ := hok
        subst he0
        subst hc2
        constructor
        · intro id2 e2 h2
          exact h2
        · rw [getHyperscanDatabase, he]
    | none =>
        have hpreserve : ∀ (en : CacheEntry) id2 e2, alGet cache id2 = some e2 →
            alGet (alSet cache rule.fileName en) id2 = some e2 := by
          intro en id2 e2 h2
          by_cases hid : rule.fileName = id2
          · subst hid
            rw [he] at h2
            exact absurd h2 (by simp)
          · rw [alGet_alSet_ne cache rule.fileName id2 en hid]
            exact h2
        cases hfs : fs rule.fileName with
        | some blob =>
            rw [getHyperscanDatabase, he, hfs] at hok
            simp only [Except.ok.injEq, Prod.mk.injEq] at hok
            obtain ⟨he0, hc2, _⟩ := hok
            subst he0
            subst hc2
            refine ⟨hpreserve _, ?_⟩
            rw [getHyperscanDatabase, alGet_alSet_self]
        | none =>
            cases hcd : createDatabase rule.resolveList with
            | error s =>
                rw [getHyperscanDatabase, he, hfs, hcd] at hok
                exact absurd hok (by simp)
            | ok p =>
                rw [getHyperscanDatabase, he, hfs, hcd] at hok
                simp only [Except.ok.injEq, Prod.mk.injEq] at hok
                obtain ⟨he0, hc2, _⟩ := hok
                subst he0
                subst hc2
                refine ⟨hpreserve _, ?_⟩
                rw [getHyperscanDatabase, alGet_alSet_self]

/-- Witness for C8 at a concrete input: an uncached identity with no persisted
file compiles once (persisting, as the rule requests), and acquiring again on
the resulting cache returns the same entry with no effects. -/
theorem generic_resolver_cache_lifecycle_witness :
    getHyperscanDatabase [] ⟨"db1", [("a", .str "A")], true⟩ (fun _ => none) =
      .ok (⟨.compiled [("a", 0, 9)], [(0, .str "A")]⟩,
        [("db1", ⟨.compiled [("a", 0, 9)], [(0, .str "A")]⟩)],
        [.compileDb, .persist]) ∧
    getHyperscanDatabase [("db1", ⟨.compiled [("a", 0, 9)], [(0, .str "A")]⟩)]
      ⟨"db1", [("a", .str "A")], true⟩ (fun _ => none) =
      .ok (⟨.compiled [("a", 0, 9)], [(0, .str "A")]⟩,
        [("db1", ⟨.compiled [("a", 0, 9)], [(0, .str "A")]⟩)], []) := by
  have h := generic_resolver_cache_lifecycle [] ⟨"db1", [("a", .str "A")], true⟩
    (fun _ => none) (fun _ => none)
  have h3 := h.2.2.1 rfl rfl (by simp)
  constructor
  · exact h3.trans (by rfl)
  · exact ((h.2.2.2 _ _ _ h3).2).trans (by rfl)

end Logprep
